import Mathlib

/-!
Shallow embedding of the adaptive parallel stress-test orchestrator
(`co-lab_torch.stressed.py`).

External collaborators (the numeric kernel `cpu_bound_operation`, the
buffer-clone kernel `memory_intensive_operation`, the memory probe
`get_available_memory_mb`, and the wall clock `time.time`) are modelled as
oracles collected in an `Env`: each oracle is a function of a call index, so
distinct dynamic calls may observe distinct values.  All times and memory
readings are rationals.  Python `int(size*0.8)` on a nonnegative integer
`size` truncates toward zero, which for the sizes in play equals the
mathematical floor `size*4/5` in natural-number division.
-/

structure Env where
  /-- reading of `get_available_memory_mb()` at its k-th call in a driver -/
  probe : Nat → ℚ
  /-- reading of `time.time()` at its k-th call in a driver -/
  clock : Nat → ℚ
  /-- elapsed seconds of `cpu_bound_operation(size, iterations)`;
      first argument distinguishes dynamic calls (worker id / recursion level) -/
  cpuTime : Nat → Nat → Nat → ℚ
  /-- elapsed seconds of `memory_intensive_operation(size, num_copies)`;
      first argument distinguishes dynamic calls -/
  memTime : Nat → Nat → Nat → ℚ

/-- The inline shrink-on-low-memory logic shared by `stress_cpu_multiprocessing`
and `stress_cpu_recursion`:
```
if current_memory < max_memory_mb:
    size = int(size*0.8)
    if size < 16:
      return 0
```
Returns the (possibly shrunk) size and whether the caller must abort. -/
def adjustSize (current_memory : ℚ) (size : ℕ) (max_memory_mb : ℚ) : ℕ × Bool :=
  if current_memory < max_memory_mb then
    let newSize := size * 4 / 5
    (newSize, decide (newSize < 16))
  else
    (size, false)

/-- Model of `worker_function(size, iterations, num_copies, use_memory)`; `wid` is the
index of the dynamic call (the worker slot in the pool dispatch). -/
def worker_function (env : Env) (wid : Nat) (size iterations num_copies : Nat)
    (use_memory : Bool) : ℚ :=
  let total_time : ℚ := 0
  let total_time := if use_memory then total_time + env.memTime wid size num_copies
                    else total_time
  total_time + env.cpuTime wid size iterations

/-- Observable outcome of one `stress_cpu_multiprocessing` call. -/
structure MPTrace where
  /-- the value the function returns (`end_time - start_time`, or `0` on abort) -/
  ret : ℚ
  /-- the printed `total_time = sum(results)` (0 when no workers ran) -/
  totalComputeTime : ℚ
  /-- number of worker tasks dispatched to the pool -/
  spawned : ℕ
  deriving Repr, DecidableEq

/-- Model of `stress_cpu_multiprocessing(size, num_processes, iterations, use_memory,
num_copies, max_memory_mb)`: one clock read, one memory probe, the shrink
logic, then fan-out of `num_processes` identical worker tasks and fan-in of
their summed times, returning the wall-clock span of the whole dispatch. -/
def stress_cpu_multiprocessing (env : Env) (size num_processes iterations : Nat)
    (use_memory : Bool) (num_copies : Nat) (max_memory_mb : ℚ) : MPTrace :=
  let start_time := env.clock 0
  let current_memory := env.probe 0
  let adj := adjustSize current_memory size max_memory_mb
  if adj.2 then ⟨0, 0, 0⟩
  else
    let results := (List.range num_processes).map
      (fun wid => worker_function env wid adj.1 iterations num_copies use_memory)
    let total_time := results.sum
    let end_time := env.clock 1
    ⟨end_time - start_time, total_time, num_processes⟩

/-- Observable outcome of one `stress_cpu_recursion` call (the whole nest). -/
structure RecTrace where
  /-- the value the function returns -/
  ret : ℚ
  /-- the buffer sizes of the `cpu_bound_operation` calls made, in call order -/
  cpuSizes : List ℕ
  /-- how many times `get_available_memory_mb` was consulted -/
  memChecks : ℕ
  deriving Repr, DecidableEq

/-- Model of `stress_cpu_recursion(size, depth, use_memory, max_memory_mb)`: at each
level one memory probe and the shrink logic (abort returns 0 for the whole
remaining nest); base case `depth <= 0` runs the kernel once; otherwise the
recursive call at `depth-1` runs first, then the kernel at the current level,
and the two times are added.  `k` counts the levels already entered and
indexes the probe and kernel oracles. -/
def stress_cpu_recursion (env : Env) (k : Nat) (size : Nat) (depth : ℤ)
    (use_memory : Bool) (max_memory_mb : ℚ) : RecTrace :=
  let current_memory := env.probe k
  let adj := adjustSize current_memory size max_memory_mb
  if adj.2 then ⟨0, [], 1⟩
  else if depth ≤ 0 then ⟨env.cpuTime k adj.1 1, [adj.1], 1⟩
  else
    let deeper := stress_cpu_recursion env (k + 1) adj.1 (depth - 1) use_memory max_memory_mb
    ⟨deeper.ret + env.cpuTime k adj.1 1, deeper.cpuSizes ++ [adj.1], deeper.memChecks + 1⟩
  termination_by depth.toNat
  decreasing_by
    simp only [not_le] at *
    omega

/-- Record appended by `run_tests` for one test: its `"test"` name and its
`"time"` value (the other dict keys are copies of the derived parameters). -/
structure RoundRecord where
  test : String
  time : ℚ
  deriving Repr, DecidableEq

/-- The parameter block computed at the top of `run_tests` (lines 84–91). -/
structure TestParams where
  size : ℕ
  iterations : ℕ
  num_processes : ℕ
  use_memory : Bool
  num_copies : ℕ
  depth : ℕ
  max_memory_mb : ℚ
  deriving Repr, DecidableEq

/-- Derivation of the per-round parameters from the size multiplier:
`size = int(128*m)`, `iterations = int(1000/m)`, `num_processes =
os.cpu_count() // 2`, `use_memory = True`, `num_copies = int(1000*m)`,
`depth = int(10*m)`, `max_memory_mb = 500`.  `cpu_count` stands for
`os.cpu_count()`. -/
def deriveParams (cpu_count m : ℕ) : TestParams :=
  ⟨128 * m, 1000 / m, cpu_count / 2, true, 1000 * m, 10 * m, 500⟩

/-- Model of `run_tests(size_mult)`: derive the parameters, run the multiprocessing
test and record it, then run the recursion test (memory phase disabled) and
record it.  `envM` and `envR` are the states of the external world at the two
driver calls. -/
def run_tests (envM envR : Env) (cpu_count m : ℕ) : List RoundRecord :=
  let p := deriveParams cpu_count m
  let cpu_time := (stress_cpu_multiprocessing envM p.size p.num_processes
      p.iterations p.use_memory p.num_copies p.max_memory_mb).ret
  let cpu_time_recursion := (stress_cpu_recursion envR 0 p.size (p.depth : ℤ)
      false p.max_memory_mb).ret
  [⟨"multiprocessing CPU with memory", cpu_time⟩, ⟨"recursive CPU", cpu_time_recursion⟩]

/-- The size the recursive driver holds after `j` levels of adjustment:
`sizeAt 0 = size` (the argument of the top call at probe index `k`), and each
level replaces it by the adjusted size before passing it down. -/
def sizeAt (env : Env) (max_memory_mb : ℚ) (k : Nat) (size : Nat) : Nat → Nat
  | 0 => size
  | j + 1 => (adjustSize (env.probe (k + j)) (sizeAt env max_memory_mb k size j) max_memory_mb).1

/-! ## Concrete environments used as evaluation points -/

/-- Plenty of memory (probe 10000), clock advancing 5 per reading, every
kernel call takes 1 second. -/
def envHigh : Env where
  probe := fun _ => 10000
  clock := fun k => 5 * k
  cpuTime := fun _ _ _ => 1
  memTime := fun _ _ _ => 1

/-- Memory pressure (probe 100, below the 500 MB floor used in the tests). -/
def envLow : Env where
  probe := fun _ => 100
  clock := fun k => 3 * k
  cpuTime := fun _ _ _ => 2
  memTime := fun _ _ _ => 2

/-! ## Helper lemmas -/

/-- In Python, `int(size*0.8)` on a natural size is the mathematical floor of
`size * 0.8`, which natural division `size * 4 / 5` computes. -/
theorem shrink_eq_floor (s : ℕ) : s * 4 / 5 = Nat.floor ((s : ℚ) * (4 / 5)) := by
  rw [mul_div_assoc']
  rw [show ((s : ℚ) * 4) = ((s * 4 : ℕ) : ℚ) by push_cast; ring]
  rw [show (5 : ℚ) = ((5 : ℕ) : ℚ) by norm_num]
  rw [Nat.floor_div_nat, Nat.floor_natCast]

theorem stress_cpu_multiprocessing_abort_eq (env : Env) (size n iters : ℕ)
    (um : Bool) (copies : ℕ) (mm : ℚ)
    (h : (adjustSize (env.probe 0) size mm).2 = true) :
    stress_cpu_multiprocessing env size n iters um copies mm = ⟨0, 0, 0⟩ := by
  simp [stress_cpu_multiprocessing, h]

theorem stress_cpu_multiprocessing_noabort_eq (env : Env) (size n iters : ℕ)
    (um : Bool) (copies : ℕ) (mm : ℚ)
    (h : (adjustSize (env.probe 0) size mm).2 = false) :
    stress_cpu_multiprocessing env size n iters um copies mm =
      ⟨env.clock 1 - env.clock 0,
       ((List.range n).map (fun wid =>
         worker_function env wid (adjustSize (env.probe 0) size mm).1 iters copies um)).sum,
       n⟩ := by
  simp [stress_cpu_multiprocessing, h]

theorem stress_cpu_recursion_eq (env : Env) (k size : ℕ) (depth : ℤ) (um : Bool) (mm : ℚ) :
    stress_cpu_recursion env k size depth um mm =
      (let adj := adjustSize (env.probe k) size mm
       if adj.2 then ⟨0, [], 1⟩
       else if depth ≤ 0 then ⟨env.cpuTime k adj.1 1, [adj.1], 1⟩
       else
         let deeper := stress_cpu_recursion env (k + 1) adj.1 (depth - 1) um mm
         ⟨deeper.ret + env.cpuTime k adj.1 1, deeper.cpuSizes ++ [adj.1], deeper.memChecks + 1⟩) := by
  rw [stress_cpu_recursion]

/-! ## Claim theorems -/

/-- C2: when the probe reading is below the floor the policy returns
`(⌊currentSize * 0.8⌋, abort)` with abort exactly when the shrunk size is
below 16, and returns the size unchanged with no abort otherwise; in
particular probe 100 / floor 500 shrinks 128 to 102 without abort and
shrinks 16 to 12 with abort. -/
theorem C2_adjustSize_policy (p : ℚ) (s : ℕ) (m : ℚ) :
    (adjustSize p s m =
      if p < m
      then (Nat.floor ((s : ℚ) * (4 / 5)), decide (Nat.floor ((s : ℚ) * (4 / 5)) < 16))
      else (s, false))
    ∧ adjustSize 100 128 500 = (102, false)
    ∧ adjustSize 100 16 500 = (12, true) := by
  refine ⟨?_, by decide, by decide⟩
  by_cases hp : p < m <;> simp [adjustSize, hp, ← shrink_eq_floor]

/-- C7: a worker with the memory phase enabled returns the buffer-clone
phase time plus the CPU-bound phase time; with it disabled it returns the
CPU-bound phase time alone. -/
theorem C7_worker_function_phases (env : Env) (wid size iterations num_copies : ℕ) :
    worker_function env wid size iterations num_copies true
      = env.memTime wid size num_copies + env.cpuTime wid size iterations
    ∧ worker_function env wid size iterations num_copies false
      = env.cpuTime wid size iterations := by
  constructor <;> simp [worker_function]

/-- C1 counterexample: in a run with ample memory (no abort), two workers and
every kernel call costing 1 second while the clock advances 5 seconds across
the dispatch, `stress_cpu_multiprocessing` returns 5 — the wall-clock span —
and not 2, the sum of the worker totals, refuting the claim that the sum
is what is returned. -/
theorem C1_counterexample :
    (adjustSize (envHigh.probe 0) 128 500).2 = false ∧
    (stress_cpu_multiprocessing envHigh 128 2 3 false 0 500).ret = 5 ∧
    (stress_cpu_multiprocessing envHigh 128 2 3 false 0 500).totalComputeTime = 2 ∧
    (stress_cpu_multiprocessing envHigh 128 2 3 false 0 500).ret ≠
      (stress_cpu_multiprocessing envHigh 128 2 3 false 0 500).totalComputeTime := by
  norm_num [stress_cpu_multiprocessing, adjustSize, worker_function, envHigh, List.range_succ]

/-- C1 (amended): when the policy does not abort, `stress_cpu_multiprocessing`
returns the wall-clock span of the dispatch call itself (second clock reading
minus first), while the sum of the individual worker totals is only the
printed `total_time`, not the return value. -/
theorem C1_returns_wall_clock (env : Env) (size n iters : ℕ) (um : Bool)
    (copies : ℕ) (mm : ℚ)
    (h : (adjustSize (env.probe 0) size mm).2 = false) :
    (stress_cpu_multiprocessing env size n iters um copies mm).ret
      = env.clock 1 - env.clock 0
    ∧ (stress_cpu_multiprocessing env size n iters um copies mm).totalComputeTime
      = ((List.range n).map (fun wid =>
          worker_function env wid (adjustSize (env.probe 0) size mm).1 iters copies um)).sum := by
  rw [stress_cpu_multiprocessing_noabort_eq env size n iters um copies mm h]
  exact ⟨rfl, rfl⟩

/-- C1 witness: the amended theorem applied to a concrete no-abort run. -/
theorem C1_witness :
    (stress_cpu_multiprocessing envHigh 128 2 3 false 0 500).ret
      = envHigh.clock 1 - envHigh.clock 0 :=
  (C1_returns_wall_clock envHigh 128 2 3 false 0 500 (by decide)).1

/-- C4: with a monotone wall clock `stress_cpu_multiprocessing` returns a
non-negative value, and when the policy signals abort it returns exactly 0
with no worker spawned. -/
theorem C4_nonneg_and_abort (env : Env) (size n iters : ℕ) (um : Bool)
    (copies : ℕ) (mm : ℚ) (hclock : env.clock 0 ≤ env.clock 1) :
    0 ≤ (stress_cpu_multiprocessing env size n iters um copies mm).ret
    ∧ ((adjustSize (env.probe 0) size mm).2 = true →
        (stress_cpu_multiprocessing env size n iters um copies mm).ret = 0
        ∧ (stress_cpu_multiprocessing env size n iters um copies mm).spawned = 0) := by
  rcases h : (adjustSize (env.probe 0) size mm).2 with _ | _
  · rw [stress_cpu_multiprocessing_noabort_eq env size n iters um copies mm h]
    exact ⟨by simpa using hclock, fun hc => by simp [h] at hc⟩
  · rw [stress_cpu_multiprocessing_abort_eq env size n iters um copies mm h]
    exact ⟨le_refl 0, fun _ => ⟨rfl, rfl⟩⟩

/-- C4 witness: the theorem applied to a concrete run whose clock advances. -/
theorem C4_witness :
    0 ≤ (stress_cpu_multiprocessing envHigh 128 4 1000 true 1000 500).ret :=
  (C4_nonneg_and_abort envHigh 128 4 1000 true 1000 500 (by norm_num [envHigh])).1

theorem rec_use_memory_aux (env : Env) (mm : ℚ) :
    ∀ (n : ℕ) (k size : ℕ) (depth : ℤ), depth.toNat ≤ n →
      stress_cpu_recursion env k size depth true mm
        = stress_cpu_recursion env k size depth false mm := by
  intro n
  induction n with
  | zero =>
    intro k size depth hd
    rw [stress_cpu_recursion_eq env k size depth true mm,
        stress_cpu_recursion_eq env k size depth false mm]
    have h0 : depth ≤ 0 := by omega
    simp [h0]
  | succ n ih =>
    intro k size depth hd
    rw [stress_cpu_recursion_eq env k size depth true mm,
        stress_cpu_recursion_eq env k size depth false mm]
    by_cases h0 : depth ≤ 0
    · simp [h0]
    · simp only [h0, if_false]
      rw [ih (k + 1) _ (depth - 1) (by omega)]

/-- C9: the `use_memory` argument of `stress_cpu_recursion` is never consulted:
for every environment, size, depth and floor the whole trace (return value,
kernel-call sizes, memory checks) is identical with the flag on or off. -/
theorem C9_use_memory_irrelevant (env : Env) (k size : ℕ) (depth : ℤ) (mm : ℚ) :
    stress_cpu_recursion env k size depth true mm
      = stress_cpu_recursion env k size depth false mm :=
  rec_use_memory_aux env mm depth.toNat k size depth le_rfl

/-- C8: a negative depth is treated exactly like depth 0 — the trace is equal
to the depth-0 trace, and when the policy does not abort that is one memory
check and a single kernel invocation whose elapsed time is returned. -/
theorem C8_negative_depth (env : Env) (k size : ℕ) (depth : ℤ) (um : Bool) (mm : ℚ)
    (h : depth < 0) :
    stress_cpu_recursion env k size depth um mm = stress_cpu_recursion env k size 0 um mm
    ∧ ((adjustSize (env.probe k) size mm).2 = false →
        stress_cpu_recursion env k size depth um mm =
          ⟨env.cpuTime k (adjustSize (env.probe k) size mm).1 1,
           [(adjustSize (env.probe k) size mm).1], 1⟩) := by
  rw [stress_cpu_recursion_eq env k size depth um mm,
      stress_cpu_recursion_eq env k size 0 um mm]
  have h1 : depth ≤ 0 := le_of_lt h
  constructor
  · simp [h1]
  · intro hab
    simp [h1, hab]

/-- C8 witness: depth −3 with ample memory gives the depth-0 trace. -/
theorem C8_witness :
    stress_cpu_recursion envHigh 0 128 (-3) true 500
      = stress_cpu_recursion envHigh 0 128 0 true 500 :=
  (C8_negative_depth envHigh 0 128 (-3) true 500 (by norm_num)).1

theorem sizeAt_shift (env : Env) (mm : ℚ) (k size : ℕ) :
    ∀ j, sizeAt env mm (k + 1) ((adjustSize (env.probe k) size mm).1) j
        = sizeAt env mm k size (j + 1) := by
  intro j
  induction j with
  | zero =>
    show (adjustSize (env.probe k) size mm).1
        = (adjustSize (env.probe (k + 0)) (sizeAt env mm k size 0) mm).1
    rw [Nat.add_zero]
    rfl
  | succ j ih =>
    show (adjustSize (env.probe (k + 1 + j)) (sizeAt env mm (k + 1) _ j) mm).1
        = (adjustSize (env.probe (k + (j + 1))) (sizeAt env mm k size (j + 1)) mm).1
    rw [ih, show k + 1 + j = k + (j + 1) by omega]

theorem rec_noabort_trace (env : Env) (mm : ℚ) (um : Bool) :
    ∀ (d k size : ℕ),
      (∀ j, j ≤ d → (adjustSize (env.probe (k + j)) (sizeAt env mm k size j) mm).2 = false) →
      stress_cpu_recursion env k size (d : ℤ) um mm =
        ⟨∑ j in Finset.range (d + 1), env.cpuTime (k + j) (sizeAt env mm k size (j + 1)) 1,
         ((List.range (d + 1)).map (fun j => sizeAt env mm k size (j + 1))).reverse,
         d + 1⟩ := by
  intro d
  induction d with
  | zero =>
    intro k size hab
    have h0 := hab 0 le_rfl
    rw [Nat.add_zero] at h0
    rw [stress_cpu_recursion_eq]
    simp only [sizeAt] at h0 ⊢
    simp [h0, Finset.sum_range_one, sizeAt, List.range_succ]
  | succ d ih =>
    intro k size hab
    have h0 := hab 0 (by omega)
    rw [Nat.add_zero] at h0
    simp only [sizeAt] at h0
    rw [stress_cpu_recursion_eq]
    have hd0 : ¬ ((d + 1 : ℕ) : ℤ) ≤ 0 := by omega
    have hcast : ((d + 1 : ℕ) : ℤ) - 1 = (d : ℕ) := by omega
    simp only [h0, if_false, Bool.false_eq_true, hd0, hcast]
    have hab' : ∀ j, j ≤ d →
        (adjustSize (env.probe (k + 1 + j))
          (sizeAt env mm (k + 1) ((adjustSize (env.probe k) size mm).1) j) mm).2 = false := by
      intro j hj
      rw [sizeAt_shift, show k + 1 + j = k + (j + 1) by omega]
      exact hab (j + 1) (by omega)
    rw [ih (k + 1) ((adjustSize (env.probe k) size mm).1) hab']
    have hfun : ∀ j, sizeAt env mm (k + 1) ((adjustSize (env.probe k) size mm).1) (j + 1)
        = sizeAt env mm k size (j + 2) := fun j => sizeAt_shift env mm k size (j + 1)
    dsimp only
    congr 1
    · rw [Finset.sum_range_succ'
        (fun j => env.cpuTime (k + j) (sizeAt env mm k size (j + 1)) 1) (d + 1)]
      congr 1
      · refine Finset.sum_congr rfl (fun j _ => ?_)
        rw [hfun j, show k + 1 + j = k + (j + 1) by omega]
    · rw [List.range_succ_eq_map (d + 1)]
      simp only [List.map_cons, List.map_map, List.reverse_cons]
      congr 1
      · refine congrArg List.reverse ?_
        refine List.map_congr_left (fun j _ => ?_)
        simp only [Function.comp]
        rw [hfun j]

theorem adjustSize_noabort_ge (p : ℚ) (s : ℕ) (m : ℚ) (h16 : 16 ≤ s)
    (h : (adjustSize p s m).2 = false) : 16 ≤ (adjustSize p s m).1 := by
  by_cases hp : p < m <;> simp [adjustSize, hp] at h ⊢ <;> omega

theorem rec_sizes_ge (env : Env) (mm : ℚ) (um : Bool) :
    ∀ (n k size : ℕ) (depth : ℤ), depth.toNat ≤ n → 16 ≤ size →
      ∀ s ∈ (stress_cpu_recursion env k size depth um mm).cpuSizes, 16 ≤ s := by
  intro n
  induction n with
  | zero =>
    intro k size depth hn h16 s hs
    rw [stress_cpu_recursion_eq] at hs
    have h0 : depth ≤ 0 := by omega
    rcases hab : (adjustSize (env.probe k) size mm).2 with _ | _
    · simp [hab, h0] at hs
      subst hs
      exact adjustSize_noabort_ge _ _ _ h16 hab
    · simp [hab] at hs
  | succ n ih =>
    intro k size depth hn h16 s hs
    rw [stress_cpu_recursion_eq] at hs
    rcases hab : (adjustSize (env.probe k) size mm).2 with _ | _
    · by_cases h0 : depth ≤ 0
      · simp [hab, h0] at hs
        subst hs
        exact adjustSize_noabort_ge _ _ _ h16 hab
      · simp [hab, h0] at hs
        rcases hs with hs | hs
        · exact ih (k + 1) _ (depth - 1) (by omega)
            (adjustSize_noabort_ge _ _ _ h16 hab) s hs
        · subst hs
          exact adjustSize_noabort_ge _ _ _ h16 hab
    · simp [hab] at hs

theorem rec_ret_nonneg (env : Env) (mm : ℚ) (um : Bool)
    (hcpu : ∀ a b c, 0 ≤ env.cpuTime a b c) :
    ∀ (n k size : ℕ) (depth : ℤ), depth.toNat ≤ n →
      0 ≤ (stress_cpu_recursion env k size depth um mm).ret := by
  intro n
  induction n with
  | zero =>
    intro k size depth hn
    rw [stress_cpu_recursion_eq]
    have h0 : depth ≤ 0 := by omega
    rcases hab : (adjustSize (env.probe k) size mm).2 with _ | _ <;>
      simp [hab, h0, hcpu]
  | succ n ih =>
    intro k size depth hn
    rw [stress_cpu_recursion_eq]
    by_cases h0 : depth ≤ 0
    · rcases hab : (adjustSize (env.probe k) size mm).2 with _ | _ <;>
        simp [hab, h0, hcpu]
    · rcases hab : (adjustSize (env.probe k) size mm).2 with _ | _
      · simp only [hab, h0, Bool.false_eq_true, if_false]
        exact add_nonneg (ih (k + 1) _ (depth - 1) (by omega)) (hcpu _ _ _)
      · simp [hab, h0, hcpu]

theorem mp_ret_nonneg (env : Env) (size n iters : ℕ) (um : Bool) (copies : ℕ) (mm : ℚ)
    (hclock : env.clock 0 ≤ env.clock 1) :
    0 ≤ (stress_cpu_multiprocessing env size n iters um copies mm).ret := by
  rcases h : (adjustSize (env.probe 0) size mm).2 with _ | _
  · rw [stress_cpu_multiprocessing_noabort_eq env size n iters um copies mm h]
    simpa using hclock
  · rw [stress_cpu_multiprocessing_abort_eq env size n iters um copies mm h]

/-- C3: with `depth ≥ 0` and no abort at any level, the recursive driver makes
exactly `depth + 1` kernel invocations and `depth + 1` memory checks, and
returns the sum of the `depth + 1` per-invocation elapsed times. -/
theorem C3_recursion_counts (env : Env) (k size : ℕ) (depth : ℤ) (um : Bool) (mm : ℚ)
    (hd : 0 ≤ depth)
    (hab : ∀ j, j ≤ depth.toNat →
      (adjustSize (env.probe (k + j)) (sizeAt env mm k size j) mm).2 = false) :
    (stress_cpu_recursion env k size depth um mm).cpuSizes.length = depth.toNat + 1
    ∧ (stress_cpu_recursion env k size depth um mm).memChecks = depth.toNat + 1
    ∧ (stress_cpu_recursion env k size depth um mm).ret
        = ∑ j in Finset.range (depth.toNat + 1),
            env.cpuTime (k + j) (sizeAt env mm k size (j + 1)) 1 := by
  obtain ⟨d, rfl⟩ : ∃ d : ℕ, depth = (d : ℤ) := ⟨depth.toNat, (Int.toNat_of_nonneg hd).symm⟩
  simp only [Int.toNat_natCast] at hab ⊢
  rw [rec_noabort_trace env mm um d k size hab]
  exact ⟨by simp, rfl, rfl⟩

/-- C3 witness: with ample memory, depth 2 gives three memory checks. -/
theorem C3_witness :
    (stress_cpu_recursion envHigh 0 128 2 true 500).memChecks = 3 := by
  have h := C3_recursion_counts envHigh 0 128 2 true 500 (by norm_num) (by decide)
  rw [h.2.1]
  decide

/-- C10: provided the initial size is at least 16, every kernel invocation in
the recursive nest uses a size of at least 16; a top-level abort yields the
zero trace with no kernel call; and while the probe stays below the floor the
size passed down compounds by a floor-of-0.8 shrink per level. -/
theorem C10_shrunk_size_propagates (env : Env) (k size : ℕ) (depth : ℤ) (um : Bool) (mm : ℚ)
    (h16 : 16 ≤ size) :
    (∀ s ∈ (stress_cpu_recursion env k size depth um mm).cpuSizes, 16 ≤ s)
    ∧ ((adjustSize (env.probe k) size mm).2 = true →
        stress_cpu_recursion env k size depth um mm = ⟨0, [], 1⟩)
    ∧ (∀ j, (∀ i, i < j → env.probe (k + i) < mm) →
        sizeAt env mm k size j = (fun t => t * 4 / 5)^[j] size) := by
  refine ⟨rec_sizes_ge env mm um depth.toNat k size depth le_rfl h16, ?_, ?_⟩
  · intro hab
    rw [stress_cpu_recursion_eq]
    simp [hab]
  · intro j
    induction j with
    | zero => intro _; rfl
    | succ j ih =>
      intro hlow
      show (adjustSize (env.probe (k + j)) (sizeAt env mm k size j) mm).1 = _
      rw [ih (fun i hi => hlow i (by omega)), Function.iterate_succ_apply']
      simp [adjustSize, hlow j (by omega)]

/-- C10 witness: from size 128 under sustained memory pressure the first
kernel call of a depth-1 nest uses the compounded-shrink size 102 ≥ 16. -/
theorem C10_witness :
    (102 : ℕ) ∈ (stress_cpu_recursion envLow 0 128 1 false 500).cpuSizes
    ∧ (16 : ℕ) ≤ 102 := by
  have ht := rec_noabort_trace envLow 500 false 1 0 128 (by decide)
  simp only [Nat.cast_one] at ht
  have hmem : (102 : ℕ) ∈ (stress_cpu_recursion envLow 0 128 1 false 500).cpuSizes := by
    rw [ht]; decide
  exact ⟨hmem, (C10_shrunk_size_propagates envLow 0 128 1 false 500 (by norm_num)).1 102 hmem⟩

/-- C5: `run_tests` produces exactly two records, the multiprocessing record
strictly before the recursion record, and (for a monotone wall clock and a
non-negative kernel) both `time` fields are non-negative. -/
theorem C5_run_tests_order (envM envR : Env) (cpu_count m : ℕ) (hm : 0 < m)
    (hclock : envM.clock 0 ≤ envM.clock 1)
    (hcpu : ∀ a b c, 0 ≤ envR.cpuTime a b c) :
    (run_tests envM envR cpu_count m).length = 2
    ∧ (run_tests envM envR cpu_count m).map RoundRecord.test
        = ["multiprocessing CPU with memory", "recursive CPU"]
    ∧ ∀ r ∈ run_tests envM envR cpu_count m, 0 ≤ r.time := by
  refine ⟨rfl, rfl, ?_⟩
  intro r hr
  simp only [run_tests, List.mem_cons, List.not_mem_nil, or_false] at hr
  rcases hr with hr | hr
  · subst hr
    exact mp_ret_nonneg envM _ _ _ _ _ _ hclock
  · subst hr
    exact rec_ret_nonneg envR _ _ hcpu _ 0 _ _ le_rfl

/-- C5 witness: a concrete round at multiplier 1 yields the two records in
the fixed name order. -/
theorem C5_witness :
    (run_tests envHigh envHigh 8 1).map RoundRecord.test
      = ["multiprocessing CPU with memory", "recursive CPU"] :=
  (C5_run_tests_order envHigh envHigh 8 1 (by norm_num) (by norm_num [envHigh])
    (fun a b c => by norm_num [envHigh])).2.1

/-- C6: across the fixed multiplier sequence 1, 2, 4, 8, 16, a larger
multiplier yields a strictly larger size, strictly fewer iterations, strictly
more copies and strictly deeper recursion, with the worker count unchanged. -/
theorem C6_deriveParams_monotone (cpu_count m1 m2 : ℕ)
    (h1 : m1 ∈ ([1, 2, 4, 8, 16] : List ℕ)) (h2 : m2 ∈ ([1, 2, 4, 8, 16] : List ℕ))
    (hlt : m1 < m2) :
    (deriveParams cpu_count m1).size < (deriveParams cpu_count m2).size
    ∧ (deriveParams cpu_count m2).iterations < (deriveParams cpu_count m1).iterations
    ∧ (deriveParams cpu_count m1).num_copies < (deriveParams cpu_count m2).num_copies
    ∧ (deriveParams cpu_count m1).depth < (deriveParams cpu_count m2).depth
    ∧ (deriveParams cpu_count m1).num_processes = (deriveParams cpu_count m2).num_processes := by
  refine ⟨?_, ?_, ?_, ?_, rfl⟩ <;>
    (simp only [deriveParams]; fin_cases h1 <;> fin_cases h2 <;> omega)

/-- C6 witness: multipliers 2 < 8 give strictly increasing sizes. -/
theorem C6_witness :
    (deriveParams 8 2).size < (deriveParams 8 8).size :=
  (C6_deriveParams_monotone 8 2 8 (by decide) (by decide) (by decide)).1
